import Mathlib

/-!
Verification of the Pololu Maestro servo controller driver (`maestro.py`).

The driver is embedded shallowly:
* microsecond pulse-width values (Python floats) become rationals `ℚ`;
* channel numbers (Python ints) become integers `ℤ`;
* the serial transport becomes a trace of `TOp` events (each `send_cmd` /
  `send_cmd_bytes` call appends one `TOp.write` carrying the full frame,
  `Serial.close` appends `TOp.closeConn`);
* a Python method that may raise becomes a function into `Res`, where an
  error carries the state at the moment of the raise together with the
  trace of bytes already written before the raise.
-/

namespace PololuMaestro

/-- One observable operation on the serial transport. -/
inductive TOp where
  | write : List ℕ → TOp
  | closeConn : TOp
deriving DecidableEq

/-- The mutable state of a `Maestro` object: variant flag (`MicroMaestro`
vs `MiniMaestro`), channel count, device number, `safe_close` flag, the four
per-channel tables, and the `_closed` flag. -/
structure MState where
  isMini : Bool
  channels : ℕ
  device : ℕ
  safeClose : Bool
  targets : List (Option ℚ)
  speeds : List (Option ℤ)
  accels : List (Option ℤ)
  limits : List (Option ℚ × Option ℚ)
  closed : Bool
deriving DecidableEq

/-- Result of running a method: on success the new state and the transport
trace; on a raise, the state at the raise and the bytes written before it. -/
abbrev Res := Except (MState × List TOp × String) (MState × List TOp)

/-- Sequencing of two stateful, trace-producing steps; traces concatenate,
and an error in the second step keeps the first step's trace. -/
def bindRes (r : Res) (f : MState → Res) : Res :=
  match r with
  | .error e => .error e
  | .ok (s, ops) =>
    match f s with
    | .error (s2, ops2, msg) => .error (s2, ops ++ ops2, msg)
    | .ok (s2, ops2) => .ok (s2, ops ++ ops2)

/-- Embedding of `_get_lsb_msb(value)`: range-check `[0, 16383]`, then
`lsb = value & 0x7F`, `msb = (value >> 7) & 0x7F`. -/
def getLsbMsb (value : ℤ) : Except String (ℕ × ℕ) :=
  if 0 ≤ value ∧ value ≤ 16383 then
    .ok (value.toNat &&& 0x7F, (value.toNat >>> 7) &&& 0x7F)
  else
    .error "value out of range"

/-- Modelled from the spec: the repository has no decoder; the spec defines
the inverse decode as `lsb | (msb << 7)`. -/
def decode14 (lsb msb : ℕ) : ℕ := lsb ||| (msb <<< 7)

/-- Python's `round` (round half to even), as used in `int(round(4 * target_us))`. -/
def pyRound (q : ℚ) : ℤ :=
  if q - ⌊q⌋ < 1/2 then ⌊q⌋
  else if 1/2 < q - ⌊q⌋ then ⌊q⌋ + 1
  else if 2 ∣ ⌊q⌋ then ⌊q⌋ else ⌊q⌋ + 1

/-- Python's `int(...)` truncation toward zero, as used in `int(float(4 * target))`
(the inner `float` is the identity on the value). -/
def pyTrunc (q : ℚ) : ℤ := if 0 ≤ q then ⌊q⌋ else ⌈q⌉

/-- `self.target_limits_us[channel]`. -/
def getLimits (s : MState) (c : ℤ) : Option ℚ × Option ℚ :=
  s.limits.getD c.toNat (none, none)

/-- The clamping performed inside `set_target`: raise to `min_us` when set,
then lower to `max_us` when set. -/
def clampTarget (lim : Option ℚ × Option ℚ) (t : ℚ) : ℚ :=
  let t1 := match lim.1 with
    | some mn => if t < mn then mn else t
    | none => t
  match lim.2 with
  | some mx => if mx < t1 then mx else t1
  | none => t1

/-- The test of `_validate_channel(channel)`: `0 <= channel < self.channels`. -/
def ChannelOk (s : MState) (c : ℤ) : Prop := 0 ≤ c ∧ c < (s.channels : ℤ)

instance (s : MState) (c : ℤ) : Decidable (ChannelOk s c) := by
  unfold ChannelOk; infer_instance

/-- The test of `_validate_target_us(target_us)`: `0. <= target_us <= 4095.75`. -/
def TargetOk (t : ℚ) : Prop := 0 ≤ t ∧ t ≤ 4095.75

instance (t : ℚ) : Decidable (TargetOk t) := by
  unfold TargetOk; infer_instance

/-- Embedding of `Maestro.set_target`: validate channel and target, clamp via
the stored limits, send `SET_TARGET` (0x04), then record the clamped value. -/
def setTarget (s : MState) (c : ℤ) (t : ℚ) : Res :=
  if ¬ ChannelOk s c then .error (s, [], "Invalid channel")
  else if ¬ TargetOk t then .error (s, [], "target_us out of range")
  else
    match getLsbMsb (pyRound (4 * clampTarget (getLimits s c) t)) with
    | .error e => .error (s, [], e)
    | .ok (lsb, msb) =>
      .ok ({ s with targets :=
               s.targets.set c.toNat (some (clampTarget (getLimits s c) t)) },
           [TOp.write [0xAA, s.device, 0x04, c.toNat, lsb, msb]])

/-- Embedding of `Maestro._set_target_raw`: encode and send `SET_TARGET`
without validation, clamping, or recording. -/
def setTargetRaw (s : MState) (c : ℤ) (target : ℤ) : Res :=
  match getLsbMsb target with
  | .error e => .error (s, [], e)
  | .ok (lsb, msb) =>
    .ok (s, [TOp.write [0xAA, s.device, 0x04, c.toNat, lsb, msb]])

/-- Embedding of `Maestro.get_target`. -/
def getTarget (s : MState) (c : ℤ) : Except String (Option ℚ) :=
  if ¬ ChannelOk s c then .error "Invalid channel"
  else .ok (s.targets.getD c.toNat none)

/-- Embedding of `Maestro.set_digital`: validate the channel, then send a raw
`SET_TARGET` of 6000 (for `True`) or 0 (for `False`). -/
def setDigital (s : MState) (c : ℤ) (value : Bool) : Res :=
  if ¬ ChannelOk s c then .error (s, [], "Invalid channel")
  else setTargetRaw s c (if value then 6000 else 0)

/-- Embedding of `Maestro.set_acceleration`: validate the channel, encode the
value via `_get_lsb_msb`, send `SET_ACCELERATION` (0x09), record the value. -/
def setAcceleration (s : MState) (c : ℤ) (acceleration : ℤ) : Res :=
  if ¬ ChannelOk s c then .error (s, [], "Invalid channel")
  else
    match getLsbMsb acceleration with
    | .error e => .error (s, [], e)
    | .ok (lsb, msb) =>
      .ok ({ s with accels := s.accels.set c.toNat (some acceleration) },
           [TOp.write [0xAA, s.device, 0x09, c.toNat, lsb, msb]])

/-- Embedding of `Maestro.is_moving`; `position` is the value a live
`get_position(channel)` read would return. -/
def isMoving (s : MState) (c : ℤ) (position : ℚ) : Except String Bool :=
  if ¬ ChannelOk s c then .error "Invalid channel"
  else
    match s.targets.getD c.toNat none with
    | none => .ok false
    | some t => .ok (decide (0 < t) && decide (0.01 < |t - position|))

/-- The validation loop at the top of `Maestro.set_targets`: every entry's
channel and target are checked, in order, before anything else happens. -/
def validateEntries (s : MState) : List (ℤ × ℚ) → Except String Unit
  | [] => .ok ()
  | (c, t) :: rest =>
    if ¬ ChannelOk s c then .error "Invalid channel"
    else if ¬ TargetOk t then .error "target_us out of range"
    else validateEntries s rest

/-- The recording loop at the bottom of `Maestro.set_targets`:
`self._targets[channel] = target_us` for every entry, in order. -/
def recordAll (targets : List (Option ℚ)) : List (ℤ × ℚ) → List (Option ℚ)
  | [] => targets
  | (c, t) :: rest => recordAll (targets.set c.toNat (some t)) rest

/-- Embedding of `MicroMaestro._set_targets`: one `set_target` per entry,
in mapping order. -/
def microSetTargets (s : MState) : List (ℤ × ℚ) → Res
  | [] => .ok (s, [])
  | (c, t) :: rest => bindRes (setTarget s c t) (fun s1 => microSetTargets s1 rest)

/-- `sorted(targets.keys())` (keys of a dict are distinct, so any sort agrees
with Python's). -/
def sortedKeys (m : List (ℤ × ℚ)) : List ℤ :=
  List.insertionSort (· ≤ ·) (m.map Prod.fst)

/-- `targets[channel]` dictionary lookup (total: callers only use keys). -/
def lookupTarget (m : List (ℤ × ℚ)) (c : ℤ) : ℚ :=
  match m.find? (fun p => p.1 == c) with
  | some p => p.2
  | none => 0

/-- The run-building loop of `MiniMaestro._set_targets`: walk the sorted
channels; a channel exactly one above the previous one joins the current
block, otherwise it starts a new block. -/
def buildBlocksGo (m : List (ℤ × ℚ)) :
    List ℤ → ℤ → ℤ × List ℚ → List (ℤ × List ℚ) → List (ℤ × List ℚ)
  | [], _, cur, acc => acc ++ [cur]
  | c :: rest, prev, cur, acc =>
    if c - 1 = prev then
      buildBlocksGo m rest c (cur.1, cur.2 ++ [lookupTarget m c]) acc
    else
      buildBlocksGo m rest c (c, [lookupTarget m c]) (acc ++ [cur])

/-- The `target_blocks` structure built by `MiniMaestro._set_targets`.
On an empty mapping the Python code raises `IndexError` at `channels[0]`,
modelled as `none`. -/
def buildBlocks (m : List (ℤ × ℚ)) : Option (List (ℤ × List ℚ)) :=
  match sortedKeys m with
  | [] => none
  | c :: rest => some (buildBlocksGo m rest c (c, [lookupTarget m c]) [])

/-- The payload loop of the `SET_MULTIPLE_TARGETS` branch: for each target,
`int(float(4 * target))` encoded through `_get_lsb_msb`. -/
def encodePairs : List ℚ → Except String (List ℕ)
  | [] => .ok []
  | t :: rest =>
    match getLsbMsb (pyTrunc (4 * t)) with
    | .error e => .error e
    | .ok (lsb, msb) =>
      match encodePairs rest with
      | .error e => .error e
      | .ok bs => .ok (lsb :: msb :: bs)

/-- Emission of one block: a single-entry block goes through `set_target`;
a longer block becomes one `SET_MULTIPLE_TARGETS` (0x1F) frame carrying the
count, the first channel, and the encoded targets. -/
def emitBlock (s : MState) (fc : ℤ) (ts : List ℚ) : Res :=
  if ts.length = 1 then setTarget s fc (ts.headD 0)
  else
    match encodePairs ts with
    | .error e => .error (s, [], e)
    | .ok bs =>
      .ok (s, [TOp.write ([0xAA, s.device, 0x1F, ts.length, fc.toNat] ++ bs)])

/-- The emission loop over `target_blocks.items()` (insertion order, which is
ascending first-channel order). -/
def emitBlocks (s : MState) : List (ℤ × List ℚ) → Res
  | [] => .ok (s, [])
  | (fc, ts) :: rest => bindRes (emitBlock s fc ts) (fun s1 => emitBlocks s1 rest)

/-- Embedding of `MiniMaestro._set_targets`. -/
def miniSetTargets (s : MState) (m : List (ℤ × ℚ)) : Res :=
  match buildBlocks m with
  | none => .error (s, [], "IndexError")
  | some blocks => emitBlocks s blocks

/-- The variant dispatch of the abstract `Maestro._set_targets`. -/
def dispatchTargets (s : MState) (m : List (ℤ × ℚ)) : Res :=
  if s.isMini then miniSetTargets s m else microSetTargets s m

/-- Embedding of `Maestro.set_targets` on a mapping argument: validate every
entry, dispatch to the variant strategy, then record every raw entry. -/
def setTargetsMap (s : MState) (m : List (ℤ × ℚ)) : Res :=
  match validateEntries s m with
  | .error e => .error (s, [], e)
  | .ok _ =>
    bindRes (dispatchTargets s m)
      (fun s1 => .ok ({ s1 with targets := recordAll s1.targets m }, []))

/-- `dict(enumerate(targets))` for a list argument. -/
def enumFrom (i : ℕ) : List ℚ → List (ℤ × ℚ)
  | [] => []
  | t :: rest => ((i : ℤ), t) :: enumFrom (i + 1) rest

/-- Embedding of `Maestro.set_targets` on a full-length list argument. -/
def setTargetsList (s : MState) (l : List ℚ) : Res :=
  if l.length ≠ s.channels then
    .error (s, [], "targets sequence has wrong length")
  else setTargetsMap s (enumFrom 0 l)

/-- Embedding of `Maestro.stop`: `set_targets([0] * self.channels)`. -/
def stop (s : MState) : Res := setTargetsList s (List.replicate s.channels 0)

/-- Embedding of `Maestro.close`: a no-op when already closed; otherwise
optionally `stop()` (when `safe_close`), then close the serial port and set
`_closed`. -/
def closeDev (s : MState) : Res :=
  if s.closed then .ok (s, [])
  else
    bindRes (if s.safeClose then stop s else .ok (s, []))
      (fun s1 => .ok ({ s1 with closed := true }, [TOp.closeConn]))

/-- A freshly constructed `Maestro.__init__` state. -/
def initState (isMini : Bool) (channels device : ℕ) (safeClose : Bool) : MState :=
  { isMini := isMini
    channels := channels
    device := device
    safeClose := safeClose
    targets := List.replicate channels none
    speeds := List.replicate channels none
    accels := List.replicate channels none
    limits := List.replicate channels (none, none)
    closed := false }

/-- A fresh `MicroMaestro` (6 channels) at the default device number 0x0C. -/
def micro6 : MState := initState false 6 12 true

/-- A fresh 12-channel `MiniMaestro` at the default device number 0x0C. -/
def mini12 : MState := initState true 12 12 true

/-! ### Arithmetic helper lemmas -/

lemma pyRound_cast (n : ℤ) : pyRound (n : ℚ) = n := by
  unfold pyRound
  rw [Int.floor_intCast]
  norm_num

lemma pyTrunc_cast (n : ℤ) : pyTrunc (n : ℚ) = n := by
  unfold pyTrunc
  rcases le_or_lt 0 ((n : ℚ)) with h | h
  · rw [if_pos h, Int.floor_intCast]
  · rw [if_neg (not_le.mpr h), Int.ceil_intCast]

lemma pyRound_eq (q : ℚ) (n : ℤ) (h : q = (n : ℚ)) : pyRound q = n := by
  rw [h, pyRound_cast]

lemma pyTrunc_eq (q : ℚ) (n : ℤ) (h : q = (n : ℚ)) : pyTrunc q = n := by
  rw [h, pyTrunc_cast]

lemma pyRound_range (q : ℚ) (h0 : 0 ≤ q) (h1 : q ≤ 16383) :
    0 ≤ pyRound q ∧ pyRound q ≤ 16383 := by
  have hf0 : 0 ≤ ⌊q⌋ := by positivity
  have hf1 : ⌊q⌋ ≤ 16383 := by
    have := Int.floor_le_floor h1
    simpa using this
  unfold pyRound
  split
  · exact ⟨hf0, hf1⟩
  · rename_i hlt
    have hq : (⌊q⌋ : ℚ) < q := by
      have := not_lt.mp hlt
      linarith
    have : ⌊q⌋ < 16383 := by
      by_contra hcon
      have he : ⌊q⌋ = 16383 := le_antisymm hf1 (not_lt.mp hcon)
      have : (16383 : ℚ) < q := by
        have := hq
        rw [he] at this
        simpa using this
      linarith
    split
    · omega
    · split <;> omega

lemma pyTrunc_range (q : ℚ) (h0 : 0 ≤ q) (h1 : q ≤ 16383) :
    0 ≤ pyTrunc q ∧ pyTrunc q ≤ 16383 := by
  unfold pyTrunc
  rw [if_pos h0]
  constructor
  · positivity
  · have := Int.floor_le_floor h1
    simpa using this

lemma getLsbMsb_ok (n : ℤ) (h0 : 0 ≤ n) (h1 : n ≤ 16383) :
    getLsbMsb n = .ok (n.toNat &&& 0x7F, (n.toNat >>> 7) &&& 0x7F) := by
  unfold getLsbMsb
  rw [if_pos ⟨h0, h1⟩]

lemma land_127_eq_mod (v : ℕ) : v &&& 127 = v % 128 := by
  have := Nat.and_pow_two_sub_one_eq_mod v 7
  norm_num at this
  exact this

lemma shift7_land_127_eq (v : ℕ) : (v >>> 7) &&& 127 = v / 128 % 128 := by
  have h3 := Nat.shiftRight_eq_div_pow v 7
  norm_num at h3
  rw [h3, land_127_eq_mod]

lemma lor_shift_eq (v : ℕ) (h : v < 16384) :
    (v &&& 127) ||| (((v >>> 7) &&& 127) <<< 7) = v := by
  rw [land_127_eq_mod, shift7_land_127_eq, Nat.shiftLeft_eq]
  have hb : v % 128 < 2 ^ 7 := by
    norm_num
    omega
  have hkey := Nat.mul_add_lt_is_or hb (v / 128 % 128)
  rw [Nat.lor_comm, mul_comm]
  rw [← hkey]
  omega

/-! ### C2: 14-bit encode/decode -/

/-- C2: for every integer v in [0, 16383], `_get_lsb_msb` succeeds with
lsb the low 7 bits of v and msb bits 7 to 13, and the spec's decode
`lsb | (msb << 7)` returns v; outside the range it raises a range error. -/
theorem claim2_encode14_roundtrip (v : ℤ) :
    (0 ≤ v → v ≤ 16383 →
      getLsbMsb v = .ok (v.toNat &&& 0x7F, (v.toNat >>> 7) &&& 0x7F) ∧
      v.toNat &&& 0x7F = v.toNat % 2 ^ 7 ∧
      (v.toNat >>> 7) &&& 0x7F = v.toNat / 2 ^ 7 % 2 ^ 7 ∧
      ((decode14 (v.toNat &&& 0x7F) ((v.toNat >>> 7) &&& 0x7F) : ℕ) : ℤ) = v) ∧
    (¬ (0 ≤ v ∧ v ≤ 16383) → getLsbMsb v = .error "value out of range") := by
  constructor
  · intro h0 h1
    refine ⟨getLsbMsb_ok v h0 h1, ?_, ?_, ?_⟩
    · have := land_127_eq_mod v.toNat
      norm_num
      omega
    · have := shift7_land_127_eq v.toNat
      norm_num
      omega
    · unfold decode14
      have hlt : v.toNat < 16384 := by omega
      rw [lor_shift_eq v.toNat hlt]
      omega
  · intro h
    unfold getLsbMsb
    rw [if_neg h]

/-- C2 witness: concrete instances of both halves at v = 5000 and v = 16384. -/
theorem claim2_witness :
    ((decode14 ((5000 : ℤ).toNat &&& 0x7F) (((5000 : ℤ).toNat >>> 7) &&& 0x7F) : ℕ) : ℤ)
        = 5000 ∧
      getLsbMsb 16384 = .error "value out of range" :=
  ⟨((claim2_encode14_roundtrip 5000).1 (by decide) (by decide)).2.2.2,
   (claim2_encode14_roundtrip 16384).2 (by decide)⟩

/-! ### List access helpers -/

lemma getD_set_self (l : List (Option ℚ)) (n : ℕ) (v : Option ℚ) (h : n < l.length) :
    (l.set n v).getD n none = v := by
  rw [List.getD_eq_getElem?_getD, List.getElem?_set_self', List.getElem?_eq_getElem h]
  rfl

/-! ### C9: acceleration range -/

/-- C9 counterexample: acceleration 256 lies outside [0, 255], yet
`set_acceleration` succeeds: it sends a SET_ACCELERATION frame and records
the value instead of raising a range error. -/
theorem claim9_counterexample :
    setAcceleration micro6 0 256 =
      .ok ({ micro6 with accels := [some 256, none, none, none, none, none] },
           [TOp.write [0xAA, 12, 0x09, 0, 0, 2]]) := by
  rfl

/-- C9 (amended): `set_acceleration` validates against [0, 16383] (the
`_get_lsb_msb` range), not [0, 255]: outside [0, 16383] it raises before any
bytes are written and records nothing; for any value in [0, 16383] it sends
SET_ACCELERATION and records the value. The source docstring says 0 to 255,
but the repository's own tests accept 16383 and reject only -1 and 16384. -/
theorem claim9_acceleration_range (s : MState) (c : ℤ) (a : ℤ) (hc : ChannelOk s c) :
    (¬ (0 ≤ a ∧ a ≤ 16383) →
      setAcceleration s c a = .error (s, [], "value out of range")) ∧
    ((0 ≤ a ∧ a ≤ 16383) →
      setAcceleration s c a =
        .ok ({ s with accels := s.accels.set c.toNat (some a) },
             [TOp.write [0xAA, s.device, 0x09, c.toNat,
               a.toNat &&& 0x7F, (a.toNat >>> 7) &&& 0x7F]])) := by
  unfold setAcceleration getLsbMsb
  rw [if_neg (not_not_intro hc)]
  constructor
  · intro h
    rw [if_neg h]
  · intro h
    rw [if_pos h]

/-- C9 witness: 16384 is rejected with no write; 300 (outside the claimed
[0, 255] but inside [0, 16383]) is sent and recorded. -/
theorem claim9_witness :
    setAcceleration micro6 1 16384 = .error (micro6, [], "value out of range") ∧
    setAcceleration micro6 1 300 =
      .ok ({ micro6 with accels := [none, some 300, none, none, none, none] },
           [TOp.write [0xAA, 12, 0x09, 1, 44, 2]]) :=
  ⟨(claim9_acceleration_range micro6 1 16384 (by decide)).1 (by decide),
   (claim9_acceleration_range micro6 1 300 (by decide)).2 (by decide)⟩

/-! ### C10: set_digital bypasses state and limits -/

/-- C10: `set_digital` sends one raw SET_TARGET frame with target 6000
(true: bytes 112, 46) or 0 (false), for every state - so the stored limits
and the target-range validation are bypassed - and returns the state
unchanged, so every recorded table survives and a later `get_target` still
returns the previously recorded target. -/
theorem claim10_set_digital (s : MState) (c : ℤ) (hc : ChannelOk s c) :
    setDigital s c true =
        .ok (s, [TOp.write [0xAA, s.device, 0x04, c.toNat, 112, 46]]) ∧
    setDigital s c false =
        .ok (s, [TOp.write [0xAA, s.device, 0x04, c.toNat, 0, 0]]) ∧
    getTarget s c = .ok (s.targets.getD c.toNat none) := by
  refine ⟨?_, ?_, ?_⟩
  · unfold setDigital
    rw [if_neg (not_not_intro hc)]
    rfl
  · unfold setDigital
    rw [if_neg (not_not_intro hc)]
    rfl
  · unfold getTarget
    rw [if_neg (not_not_intro hc)]

/-- C10 witness: concrete frames on a fresh 6-channel device, channel 3. -/
theorem claim10_witness :
    setDigital micro6 3 true = .ok (micro6, [TOp.write [0xAA, 12, 0x04, 3, 112, 46]]) ∧
    setDigital micro6 3 false = .ok (micro6, [TOp.write [0xAA, 12, 0x04, 3, 0, 0]]) :=
  ⟨(claim10_set_digital micro6 3 (by decide)).1,
   (claim10_set_digital micro6 3 (by decide)).2.1⟩

/-! ### C8: is_moving -/

/-- C8: `is_moving` is false whenever the recorded target is unset or 0,
whatever position the device would report; for a recorded target > 0 it is
true exactly when the target differs from the live position by more than
0.01 microseconds. -/
theorem claim8_is_moving (s : MState) (c : ℤ) (position : ℚ) (hc : ChannelOk s c) :
    ((s.targets.getD c.toNat none = none ∨ s.targets.getD c.toNat none = some 0) →
      isMoving s c position = .ok false) ∧
    (∀ t : ℚ, s.targets.getD c.toNat none = some t → 0 < t →
      (isMoving s c position = .ok true ↔ 0.01 < |t - position|)) := by
  unfold isMoving
  rw [if_neg (not_not_intro hc)]
  constructor
  · rintro (h | h)
    · rw [h]
    · rw [h]
      simp
  · intro t ht hpos
    rw [ht]
    simp [hpos]

/-- A state whose channel 1 was commanded to 2000 microseconds. -/
def exMoving8 : MState := { micro6 with targets := [none, some 2000, none, none, none, none] }

lemma exMoving8_target_pos : (0 : ℚ) < 2000 := by norm_num

lemma exMoving8_diff : (0.01 : ℚ) < |(2000 : ℚ) - 1000| := by
  rw [show ((2000 : ℚ) - 1000) = 1000 by norm_num, abs_of_pos (by norm_num)]
  norm_num

/-- C8 witness: fresh state reports not moving on any position; target 2000
against live position 1000 reports moving. -/
theorem claim8_witness :
    isMoving micro6 0 1234 = .ok false ∧ isMoving exMoving8 1 1000 = .ok true :=
  ⟨(claim8_is_moving micro6 0 1234 (by decide)).1 (Or.inl rfl),
   ((claim8_is_moving exMoving8 1 1000 (by decide)).2 2000 rfl
      exMoving8_target_pos).mpr exMoving8_diff⟩

/-! ### Well-formed limits and the clamp -/

/-- Both components of a limit pair, when present, are themselves valid
target values (the documented invariant on the limit table). -/
def LimOk (lim : Option ℚ × Option ℚ) : Prop :=
  (∀ mn ∈ lim.1, TargetOk mn) ∧ (∀ mx ∈ lim.2, TargetOk mx)

/-- Every stored limit pair is well formed. -/
def WfLimits (s : MState) : Prop := ∀ lim ∈ s.limits, LimOk lim

lemma getLimits_limOk (s : MState) (hwf : WfLimits s) (c : ℤ) :
    LimOk (getLimits s c) := by
  unfold getLimits
  rcases lt_or_ge c.toNat s.limits.length with h | h
  · rw [List.getD_eq_getElem?_getD, List.getElem?_eq_getElem h]
    exact hwf _ (List.getElem_mem h)
  · rw [List.getD_eq_getElem?_getD, List.getElem?_eq_none h]
    exact ⟨by intro x hx; simp at hx, by intro x hx; simp at hx⟩

lemma clampTarget_ok (lim : Option ℚ × Option ℚ) (hl : LimOk lim) (t : ℚ)
    (ht : TargetOk t) : TargetOk (clampTarget lim t) := by
  obtain ⟨h1, h2⟩ := hl
  obtain ⟨ht0, ht1⟩ := ht
  rcases lim with ⟨mn, mx⟩
  unfold clampTarget
  cases mn with
  | none =>
    cases mx with
    | none => exact ⟨ht0, ht1⟩
    | some b =>
      have hb := h2 b rfl
      dsimp only
      split
      · exact hb
      · exact ⟨ht0, ht1⟩
  | some a =>
    have ha := h1 a rfl
    cases mx with
    | none =>
      dsimp only
      split
      · exact ha
      · exact ⟨ht0, ht1⟩
    | some b =>
      have hb := h2 b rfl
      dsimp only
      split
      · split
        · exact hb
        · exact ha
      · split
        · exact hb
        · exact ⟨ht0, ht1⟩

/-- Successful `set_target`: with a valid channel, a valid target, and
well-formed limits, the clamped value is encoded, sent as one SET_TARGET
frame, and recorded. -/
lemma setTarget_ok (s : MState) (c : ℤ) (t : ℚ) (hc : ChannelOk s c)
    (ht : TargetOk t) (hwf : WfLimits s) :
    setTarget s c t =
      .ok ({ s with targets :=
               s.targets.set c.toNat (some (clampTarget (getLimits s c) t)) },
           [TOp.write [0xAA, s.device, 0x04, c.toNat,
             (pyRound (4 * clampTarget (getLimits s c) t)).toNat &&& 0x7F,
             ((pyRound (4 * clampTarget (getLimits s c) t)).toNat >>> 7) &&& 0x7F]]) := by
  have hck := clampTarget_ok _ (getLimits_limOk s hwf c) t ht
  have hr := pyRound_range (4 * clampTarget (getLimits s c) t)
    (by have := hck.1; linarith)
    (by have := hck.2; unfold TargetOk at hck; linarith [hck.2])
  unfold setTarget
  rw [if_neg (not_not_intro hc), if_neg (not_not_intro ht)]
  rw [getLsbMsb_ok _ hr.1 hr.2]

/-! ### C5: set_target clamps into the limit range -/

lemma clamp_500 : clampTarget (some 1000, some 2000) 500 = 1000 := by
  norm_num [clampTarget]

lemma clamp_2500 : clampTarget (some 1000, some 2000) 2500 = 2000 := by
  norm_num [clampTarget]

lemma clamp_1500 : clampTarget (some 1000, some 2000) 1500 = 1500 := by
  norm_num [clampTarget]

/-- C5: with limits (1000, 2000) on a channel, set_target(500) sends and
records 1000, set_target(2500) sends and records 2000, and set_target(1500)
sends and records 1500; get_target then returns the clamped value, never the
raw input. The frame bytes are the 14-bit encodings of 4000, 8000, 6000. -/
theorem claim5_set_target_clamps (s : MState) (c : ℤ) (hc : ChannelOk s c)
    (hwf : WfLimits s) (hlen : s.targets.length = s.channels)
    (hlim : getLimits s c = (some 1000, some 2000)) :
    (∃ s1, setTarget s c 500 =
        .ok (s1, [TOp.write [0xAA, s.device, 0x04, c.toNat, 32, 31]]) ∧
      getTarget s1 c = .ok (some 1000)) ∧
    (∃ s2, setTarget s c 2500 =
        .ok (s2, [TOp.write [0xAA, s.device, 0x04, c.toNat, 64, 62]]) ∧
      getTarget s2 c = .ok (some 2000)) ∧
    (∃ s3, setTarget s c 1500 =
        .ok (s3, [TOp.write [0xAA, s.device, 0x04, c.toNat, 112, 46]]) ∧
      getTarget s3 c = .ok (some 1500)) := by
  have hcc : c.toNat < s.targets.length := by
    obtain ⟨h0, h1⟩ := hc
    omega
  refine ⟨?_, ?_, ?_⟩
  · have h := setTarget_ok s c 500 hc (by constructor <;> norm_num) hwf
    rw [hlim, clamp_500] at h
    rw [show (4 : ℚ) * 1000 = ((4000 : ℤ) : ℚ) by norm_num] at h
    rw [pyRound_cast] at h
    refine ⟨_, h, ?_⟩
    unfold getTarget
    split
    · rename_i hbad
      exact absurd hc hbad
    · dsimp only
      rw [getD_set_self _ _ _ hcc]
  · have h := setTarget_ok s c 2500 hc (by constructor <;> norm_num) hwf
    rw [hlim, clamp_2500] at h
    rw [show (4 : ℚ) * 2000 = ((8000 : ℤ) : ℚ) by norm_num] at h
    rw [pyRound_cast] at h
    refine ⟨_, h, ?_⟩
    unfold getTarget
    split
    · rename_i hbad
      exact absurd hc hbad
    · dsimp only
      rw [getD_set_self _ _ _ hcc]
  · have h := setTarget_ok s c 1500 hc (by constructor <;> norm_num) hwf
    rw [hlim, clamp_1500] at h
    rw [show (4 : ℚ) * 1500 = ((6000 : ℤ) : ℚ) by norm_num] at h
    rw [pyRound_cast] at h
    refine ⟨_, h, ?_⟩
    unfold getTarget
    split
    · rename_i hbad
      exact absurd hc hbad
    · dsimp only
      rw [getD_set_self _ _ _ hcc]

/-- A fresh 6-channel device with limits (1000, 2000) on channel 0. -/
def exLim5 : MState :=
  { micro6 with limits :=
      [(some 1000, some 2000), (none, none), (none, none),
       (none, none), (none, none), (none, none)] }

lemma limOk_pair : LimOk (some 1000, some 2000) := by
  constructor <;> intro x hx <;>
    simp only [Option.mem_def, Option.some.injEq] at hx <;> subst hx <;>
    exact ⟨by norm_num, by norm_num⟩

lemma limOk_none : LimOk (none, none) := by
  constructor <;> intro x hx <;> simp at hx

lemma exLim5_wf : WfLimits exLim5 := by
  intro lim hlim
  simp only [exLim5, micro6, initState, List.mem_cons, List.not_mem_nil,
    or_false] at hlim
  rcases hlim with h | h | h | h | h | h <;> subst h
  · exact limOk_pair
  all_goals exact limOk_none

/-- C5 witness: the three clamp scenarios on the concrete state `exLim5`. -/
theorem claim5_witness :
    (∃ s1, setTarget exLim5 0 500 =
        .ok (s1, [TOp.write [0xAA, 12, 0x04, 0, 32, 31]]) ∧
      getTarget s1 0 = .ok (some 1000)) ∧
    (∃ s2, setTarget exLim5 0 2500 =
        .ok (s2, [TOp.write [0xAA, 12, 0x04, 0, 64, 62]]) ∧
      getTarget s2 0 = .ok (some 2000)) ∧
    (∃ s3, setTarget exLim5 0 1500 =
        .ok (s3, [TOp.write [0xAA, 12, 0x04, 0, 112, 46]]) ∧
      getTarget s3 0 = .ok (some 1500)) :=
  claim5_set_target_clamps exLim5 0 (by decide) exLim5_wf rfl rfl

/-! ### The run partition built by MiniMaestro._set_targets -/

/-- The channel indices covered by a block of `n` targets starting at `fc`:
`fc, fc+1, ..., fc+n-1`. -/
def blockChannels (fc : ℤ) (n : ℕ) : List ℤ :=
  (List.range n).map (fun i : ℕ => fc + (i : ℤ))

/-- The channels covered by a block list, in order. -/
def blocksChannels : List (ℤ × List ℚ) → List ℤ
  | [] => []
  | b :: rest => blockChannels b.1 b.2.length ++ blocksChannels rest

/-- A block agrees with the mapping: it is nonempty and its i-th stored
target is the dictionary value of channel `first + i`. -/
def BlockOk (m : List (ℤ × ℚ)) (b : ℤ × List ℚ) : Prop :=
  b.2 ≠ [] ∧ ∀ i : ℕ, i < b.2.length → b.2[i]? = some (lookupTarget m (b.1 + i))

/-- The last channel covered by a block. -/
def blockEnd (b : ℤ × List ℚ) : ℤ := b.1 + b.2.length - 1

/-- Maximality of runs: two adjacent blocks are separated by at least one
missing channel. -/
def Gap (b1 b2 : ℤ × List ℚ) : Prop := b1.1 + b1.2.length < b2.1

lemma blockChannels_one (fc : ℤ) : blockChannels fc 1 = [fc] := by
  unfold blockChannels
  rw [show List.range 1 = [0] from rfl]
  simp

lemma blockChannels_succ (fc : ℤ) (n : ℕ) :
    blockChannels fc (n + 1) = blockChannels fc n ++ [fc + n] := by
  unfold blockChannels
  rw [List.range_succ, List.map_append]
  simp

lemma blocksChannels_append (l1 l2 : List (ℤ × List ℚ)) :
    blocksChannels (l1 ++ l2) = blocksChannels l1 ++ blocksChannels l2 := by
  induction l1 with
  | nil => simp [blocksChannels]
  | cons b rest ih => simp [blocksChannels, ih]

lemma buildBlocksGo_spec (m : List (ℤ × ℚ)) :
    ∀ (rest : List ℤ) (cur : ℤ × List ℚ) (acc : List (ℤ × List ℚ)),
      List.Sorted (· < ·) (blockEnd cur :: rest) →
      BlockOk m cur →
      (∀ b ∈ acc, BlockOk m b) →
      List.Chain' Gap (acc ++ [cur]) →
      blocksChannels (buildBlocksGo m rest (blockEnd cur) cur acc)
          = blocksChannels (acc ++ [cur]) ++ rest ∧
      (∀ b ∈ buildBlocksGo m rest (blockEnd cur) cur acc, BlockOk m b) ∧
      List.Chain' Gap (buildBlocksGo m rest (blockEnd cur) cur acc) := by
  intro rest
  induction rest with
  | nil =>
    intro cur acc _ hcur hacc hch
    refine ⟨by simp [buildBlocksGo], ?_, ?_⟩
    · intro b hb
      simp only [buildBlocksGo] at hb
      rcases List.mem_append.mp hb with h | h
      · exact hacc b h
      · simp only [List.mem_singleton] at h
        subst h
        exact hcur
    · simpa [buildBlocksGo] using hch
  | cons c rest' ih =>
    intro cur acc hs hcur hacc hch
    rw [List.sorted_cons] at hs
    obtain ⟨hlt, hs'⟩ := hs
    have hltc : blockEnd cur < c := hlt c (by simp)
    by_cases hcase : c - 1 = blockEnd cur
    · -- the channel joins the current block
      have hgo : buildBlocksGo m (c :: rest') (blockEnd cur) cur acc
          = buildBlocksGo m rest' c (cur.1, cur.2 ++ [lookupTarget m c]) acc := by
        simp only [buildBlocksGo]
        rw [if_pos hcase]
      have hc1 : cur.1 + (cur.2.length : ℤ) = c := by
        unfold blockEnd at hcase
        omega
      have hend : blockEnd (cur.1, cur.2 ++ [lookupTarget m c]) = c := by
        unfold blockEnd
        simp only [List.length_append, List.length_singleton]
        push_cast
        omega
      have h1 : List.Sorted (· < ·)
          (blockEnd (cur.1, cur.2 ++ [lookupTarget m c]) :: rest') := by
        rw [hend]
        exact hs'
      have h2 : BlockOk m (cur.1, cur.2 ++ [lookupTarget m c]) := by
        obtain ⟨hne, hidx⟩ := hcur
        refine ⟨by simp, ?_⟩
        intro i hi
        simp only [List.length_append, List.length_singleton] at hi
        rcases Nat.lt_or_ge i cur.2.length with h | h
        · rw [List.getElem?_append_left h]
          exact hidx i h
        · have hieq : i = cur.2.length := by omega
          subst hieq
          rw [List.getElem?_concat_length]
          show some (lookupTarget m c) = some (lookupTarget m (cur.1 + (cur.2.length : ℤ)))
          rw [hc1]
      have h4 : List.Chain' Gap (acc ++ [(cur.1, cur.2 ++ [lookupTarget m c])]) := by
        rw [List.chain'_append] at hch ⊢
        refine ⟨hch.1, List.chain'_singleton _, ?_⟩
        intro x hx y hy
        simp only [List.head?_cons, Option.mem_def, Option.some.injEq] at hy
        subst hy
        exact hch.2.2 x hx cur (by simp)
      obtain ⟨e1, e2, e3⟩ := ih (cur.1, cur.2 ++ [lookupTarget m c]) acc h1 h2 hacc h4
      rw [hend] at e1 e2 e3
      rw [hgo]
      refine ⟨?_, e2, e3⟩
      rw [e1, blocksChannels_append, blocksChannels_append]
      simp only [blocksChannels, List.append_nil, List.length_append,
        List.length_singleton]
      rw [blockChannels_succ, hc1]
      simp [List.append_assoc]
    · -- the channel starts a new block
      have hgo : buildBlocksGo m (c :: rest') (blockEnd cur) cur acc
          = buildBlocksGo m rest' c (c, [lookupTarget m c]) (acc ++ [cur]) := by
        simp only [buildBlocksGo]
        rw [if_neg hcase]
      have hend : blockEnd (c, [lookupTarget m c]) = c := by
        unfold blockEnd
        simp
      have h1 : List.Sorted (· < ·) (blockEnd (c, [lookupTarget m c]) :: rest') := by
        rw [hend]
        exact hs'
      have h2 : BlockOk m (c, [lookupTarget m c]) := by
        refine ⟨by simp, ?_⟩
        intro i hi
        have hieq : i = 0 := by simpa using hi
        subst hieq
        simp
      have hacc' : ∀ b ∈ acc ++ [cur], BlockOk m b := by
        intro b hb
        rcases List.mem_append.mp hb with h | h
        · exact hacc b h
        · simp only [List.mem_singleton] at h
          subst h
          exact hcur
      have h4 : List.Chain' Gap ((acc ++ [cur]) ++ [(c, [lookupTarget m c])]) := by
        rw [List.chain'_append]
        refine ⟨hch, List.chain'_singleton _, ?_⟩
        intro x hx y hy
        simp only [List.head?_cons, Option.mem_def, Option.some.injEq] at hy
        subst hy
        have hxl : cur = x := by
          rw [List.getLast?_concat] at hx
          simpa using hx
        subst hxl
        show cur.1 + (cur.2.length : ℤ) < c
        unfold blockEnd at hcase hltc
        omega
      obtain ⟨e1, e2, e3⟩ := ih (c, [lookupTarget m c]) (acc ++ [cur]) h1 h2 hacc' h4
      rw [hend] at e1 e2 e3
      rw [hgo]
      refine ⟨?_, e2, e3⟩
      rw [e1, blocksChannels_append, blocksChannels_append]
      simp only [blocksChannels, List.length_singleton, blockChannels_one,
        List.append_nil]
      simp [List.append_assoc]

lemma sortedKeys_perm (m : List (ℤ × ℚ)) : (sortedKeys m).Perm (m.map Prod.fst) :=
  List.perm_insertionSort _ _

lemma sortedKeys_sorted (m : List (ℤ × ℚ)) (hnd : (m.map Prod.fst).Nodup) :
    List.Sorted (· < ·) (sortedKeys m) := by
  have hle : List.Sorted (· ≤ ·) (sortedKeys m) := List.sorted_insertionSort _ _
  have hnd' : (sortedKeys m).Nodup := (sortedKeys_perm m).nodup_iff.mpr hnd
  have hand := List.Pairwise.and hle hnd'
  exact hand.imp (fun h => lt_of_le_of_ne h.1 h.2)

/-- The partition specification: on a nonempty mapping with distinct keys,
`_set_targets` builds blocks that cover exactly the sorted channel list,
each block carries consecutive channels with their mapped targets, and
adjacent blocks are separated by a gap (the runs are maximal). -/
lemma buildBlocks_spec (m : List (ℤ × ℚ)) (hnd : (m.map Prod.fst).Nodup)
    (hne : m ≠ []) :
    ∃ blocks, buildBlocks m = some blocks ∧
      blocksChannels blocks = sortedKeys m ∧
      (∀ b ∈ blocks, BlockOk m b) ∧
      List.Chain' Gap blocks := by
  have hperm := sortedKeys_perm m
  have hsor := sortedKeys_sorted m hnd
  have hkeysne : sortedKeys m ≠ [] := by
    intro h
    rw [h] at hperm
    have hmn : m.map Prod.fst = [] := hperm.symm.eq_nil
    exact hne (List.map_eq_nil_iff.mp hmn)
  obtain ⟨c, rest, hck⟩ := List.exists_cons_of_ne_nil hkeysne
  have hend : blockEnd (c, [lookupTarget m c]) = c := by
    unfold blockEnd
    simp
  have h1 : List.Sorted (· < ·) (blockEnd (c, [lookupTarget m c]) :: rest) := by
    rw [hend, ← hck]
    exact hsor
  have h2 : BlockOk m (c, [lookupTarget m c]) := by
    refine ⟨by simp, ?_⟩
    intro i hi
    have hieq : i = 0 := by simpa using hi
    subst hieq
    simp
  obtain ⟨e1, e2, e3⟩ := buildBlocksGo_spec m rest (c, [lookupTarget m c]) [] h1 h2
    (by intro b hb; simp at hb) (by simp)
  rw [hend] at e1 e2 e3
  refine ⟨_, ?_, ?_, e2, e3⟩
  · unfold buildBlocks
    rw [hck]
  · rw [e1, hck]
    simp [blocksChannels, blockChannels_one]

/-- Dictionary lookup of a present key returns the entry. -/
lemma lookupTarget_mem (m : List (ℤ × ℚ)) (c : ℤ) (h : c ∈ m.map Prod.fst) :
    (c, lookupTarget m c) ∈ m := by
  induction m with
  | nil => simp at h
  | cons p rest ih =>
    rcases p with ⟨c', t'⟩
    by_cases hc : c' = c
    · subst hc
      unfold lookupTarget
      rw [List.find?_cons_of_pos _ (by simp)]
      exact List.mem_cons_self _ _
    · unfold lookupTarget
      rw [List.find?_cons_of_neg _ (by simp [hc])]
      have h' : c ∈ rest.map Prod.fst := by
        simp only [List.map_cons, List.mem_cons] at h
        tauto
      have hm := ih h'
      unfold lookupTarget at hm
      exact List.mem_cons_of_mem _ hm

/-! ### Emission of the dispatch traces -/

/-- The state fields the target-dispatch path never changes. -/
def SameShape (s s' : MState) : Prop :=
  s'.isMini = s.isMini ∧ s'.channels = s.channels ∧ s'.device = s.device ∧
  s'.safeClose = s.safeClose ∧ s'.targets.length = s.targets.length ∧
  s'.limits = s.limits ∧ s'.closed = s.closed

lemma sameShape_refl (s : MState) : SameShape s s :=
  ⟨rfl, rfl, rfl, rfl, rfl, rfl, rfl⟩

lemma sameShape_trans {a b c : MState} (h1 : SameShape a b) (h2 : SameShape b c) :
    SameShape a c := by
  obtain ⟨x1, x2, x3, x4, x5, x6, x7⟩ := h1
  obtain ⟨y1, y2, y3, y4, y5, y6, y7⟩ := h2
  exact ⟨y1.trans x1, y2.trans x2, y3.trans x3, y4.trans x4, y5.trans x5,
    y6.trans x6, y7.trans x7⟩

/-- The channels a frame addresses: a SET_TARGET frame covers its channel
byte, a SET_MULTIPLE_TARGETS frame covers `count` channels from its first
channel byte, every other frame covers none. -/
def frameChannels : TOp → List ℤ
  | .write (_ :: _ :: 4 :: c :: _) => [(c : ℤ)]
  | .write (_ :: _ :: 31 :: cnt :: fc :: _) => blockChannels (fc : ℤ) cnt
  | _ => []

/-- All channels addressed by a trace, in emission order. -/
def traceChannels : List TOp → List ℤ
  | [] => []
  | op :: rest => frameChannels op ++ traceChannels rest

lemma traceChannels_append (l1 l2 : List TOp) :
    traceChannels (l1 ++ l2) = traceChannels l1 ++ traceChannels l2 := by
  induction l1 with
  | nil => simp [traceChannels]
  | cons op rest ih => simp [traceChannels, ih]

/-- A present key together with its looked-up value is a valid entry. -/
lemma key_valid (s : MState) (m : List (ℤ × ℚ))
    (hv : ∀ p ∈ m, ChannelOk s p.1 ∧ TargetOk p.2) (c : ℤ)
    (h : c ∈ m.map Prod.fst) :
    ChannelOk s c ∧ TargetOk (lookupTarget m c) :=
  hv (c, lookupTarget m c) (lookupTarget_mem m c h)

lemma blocksChannels_mem (blocks : List (ℤ × List ℚ)) (b : ℤ × List ℚ)
    (hb : b ∈ blocks) (x : ℤ) (hx : x ∈ blockChannels b.1 b.2.length) :
    x ∈ blocksChannels blocks := by
  induction blocks with
  | nil => simp at hb
  | cons b' rest ih =>
    simp only [blocksChannels, List.mem_append]
    rcases List.mem_cons.mp hb with h | h
    · subst h
      exact Or.inl hx
    · exact Or.inr (ih h)

lemma encodePairs_ok (ts : List ℚ) (hts : ∀ t ∈ ts, TargetOk t) :
    ∃ bs : List ℕ, encodePairs ts = .ok bs := by
  induction ts with
  | nil => exact ⟨[], rfl⟩
  | cons t rest ih =>
    obtain ⟨h0, h1⟩ := hts t (by simp)
    have hr := pyTrunc_range (4 * t) (by linarith) (by linarith)
    obtain ⟨bs, hbs⟩ := ih (fun t' ht' => hts t' (by simp [ht']))
    refine ⟨((pyTrunc (4 * t)).toNat &&& 0x7F) ::
      (((pyTrunc (4 * t)).toNat >>> 7) &&& 0x7F) :: bs, ?_⟩
    unfold encodePairs
    rw [getLsbMsb_ok _ hr.1 hr.2, hbs]

lemma emitBlocks_ok (s : MState) (blocks : List (ℤ × List ℚ)) (hwf : WfLimits s)
    (hb : ∀ b ∈ blocks, b.2 ≠ [] ∧ ChannelOk s b.1 ∧ ∀ t ∈ b.2, TargetOk t) :
    ∃ s' ops, emitBlocks s blocks = .ok (s', ops) ∧ SameShape s s' ∧
      traceChannels ops = blocksChannels blocks ∧
      (∀ op ∈ ops, ∃ bl, op = .write bl) := by
  induction blocks generalizing s with
  | nil =>
    exact ⟨s, [], rfl, sameShape_refl s, rfl, by simp⟩
  | cons b rest ih =>
    obtain ⟨hbne, hbch, hbts⟩ := hb b (by simp)
    rcases b with ⟨fc, ts⟩
    have hrest : ∀ b' ∈ rest, b'.2 ≠ [] ∧ ChannelOk s b'.1 ∧ ∀ t ∈ b'.2, TargetOk t :=
      fun b' hb' => hb b' (List.mem_cons_of_mem _ hb')
    by_cases hlen : ts.length = 1
    · obtain ⟨t, hts1⟩ := List.length_eq_one.mp hlen
      subst hts1
      have ht : TargetOk t := hbts t (by simp)
      have hst := setTarget_ok s fc t hbch ht hwf
      have hemit : emitBlock s fc [t] = setTarget s fc t := by
        unfold emitBlock
        rw [if_pos (by simp)]
        rfl
      set s1 : MState :=
        { s with targets :=
            s.targets.set fc.toNat (some (clampTarget (getLimits s fc) t)) } with hs1
      have hsh1 : SameShape s s1 := by
        refine ⟨rfl, rfl, rfl, rfl, ?_, rfl, rfl⟩
        simp [hs1]
      have hwf1 : WfLimits s1 := hwf
      have hrest1 : ∀ b' ∈ rest, b'.2 ≠ [] ∧ ChannelOk s1 b'.1 ∧ ∀ t' ∈ b'.2, TargetOk t' :=
        hrest
      obtain ⟨s2, ops2, hrec, hsh2, htr2, hw2⟩ := ih s1 hwf1 hrest1
      set F : TOp := TOp.write [0xAA, s.device, 0x04, fc.toNat,
        (pyRound (4 * clampTarget (getLimits s fc) t)).toNat &&& 0x7F,
        ((pyRound (4 * clampTarget (getLimits s fc) t)).toNat >>> 7) &&& 0x7F] with hF
      refine ⟨s2, F :: ops2, ?_, sameShape_trans hsh1 hsh2, ?_, ?_⟩
      · show bindRes (emitBlock s fc [t]) (fun sx => emitBlocks sx rest) = _
        rw [hemit, hst]
        simp only [bindRes]
        rw [hrec]
        rfl
      · simp only [traceChannels]
        rw [htr2]
        rw [show frameChannels F = [((fc.toNat : ℕ) : ℤ)] by rw [hF]; rfl]
        rw [Int.toNat_of_nonneg hbch.1]
        simp [blocksChannels, blockChannels_one]
      · intro op hop
        rcases List.mem_cons.mp hop with h | h
        · subst h
          exact ⟨_, hF⟩
        · exact hw2 op h
    · obtain ⟨bs, hbs⟩ := encodePairs_ok ts hbts
      have hemit : emitBlock s fc ts =
          .ok (s, [TOp.write ([0xAA, s.device, 0x1F, ts.length, fc.toNat] ++ bs)]) := by
        unfold emitBlock
        rw [if_neg hlen, hbs]
      obtain ⟨s2, ops2, hrec, hsh2, htr2, hw2⟩ := ih s hwf hrest
      set F : TOp := TOp.write ([0xAA, s.device, 0x1F, ts.length, fc.toNat] ++ bs)
        with hF
      refine ⟨s2, F :: ops2, ?_, hsh2, ?_, ?_⟩
      · show bindRes (emitBlock s fc ts) (fun sx => emitBlocks sx rest) = _
        rw [hemit]
        simp only [bindRes]
        rw [hrec]
        rfl
      · simp only [traceChannels]
        rw [htr2]
        rw [show frameChannels F = blockChannels ((fc.toNat : ℕ) : ℤ) ts.length by
          rw [hF]; rfl]
        rw [Int.toNat_of_nonneg hbch.1]
        rfl
      · intro op hop
        rcases List.mem_cons.mp hop with h | h
        · subst h
          exact ⟨_, hF⟩
        · exact hw2 op h

/-- Successful dispatch on the reduced (MicroMaestro) variant: one
SET_TARGET frame per entry, in mapping order, and nothing else. -/
lemma microSetTargets_ok (s : MState) (m : List (ℤ × ℚ)) (hwf : WfLimits s)
    (hv : ∀ p ∈ m, ChannelOk s p.1 ∧ TargetOk p.2) :
    ∃ s' ops, microSetTargets s m = .ok (s', ops) ∧ SameShape s s' ∧
      traceChannels ops = m.map Prod.fst ∧
      ops.length = m.length ∧
      (∀ op ∈ ops, ∃ ch lsb msb, op = .write [0xAA, s.device, 0x04, ch, lsb, msb]) := by
  induction m generalizing s with
  | nil => exact ⟨s, [], rfl, sameShape_refl s, rfl, rfl, by simp⟩
  | cons p rest ih =>
    obtain ⟨hcp, htp⟩ := hv p (by simp)
    have hst := setTarget_ok s p.1 p.2 hcp htp hwf
    set s1 : MState :=
      { s with targets :=
          s.targets.set p.1.toNat (some (clampTarget (getLimits s p.1) p.2)) } with hs1
    have hsh1 : SameShape s s1 := by
      refine ⟨rfl, rfl, rfl, rfl, ?_, rfl, rfl⟩
      simp [hs1]
    have hwf1 : WfLimits s1 := hwf
    have hv1 : ∀ p' ∈ rest, ChannelOk s1 p'.1 ∧ TargetOk p'.2 :=
      fun p' hp' => hv p' (List.mem_cons_of_mem _ hp')
    obtain ⟨s2, ops2, hrec, hsh2, htr2, hlen2, hfr2⟩ := ih s1 hwf1 hv1
    set F : TOp := TOp.write [0xAA, s.device, 0x04, p.1.toNat,
      (pyRound (4 * clampTarget (getLimits s p.1) p.2)).toNat &&& 0x7F,
      ((pyRound (4 * clampTarget (getLimits s p.1) p.2)).toNat >>> 7) &&& 0x7F] with hF
    refine ⟨s2, F :: ops2, ?_, sameShape_trans hsh1 hsh2, ?_, ?_, ?_⟩
    · show bindRes (setTarget s p.1 p.2) (fun sx => microSetTargets sx rest) = _
      rw [hst]
      simp only [bindRes]
      rw [hrec]
      rfl
    · simp only [traceChannels]
      rw [htr2]
      rw [show frameChannels F = [((p.1.toNat : ℕ) : ℤ)] by rw [hF]; rfl]
      rw [Int.toNat_of_nonneg hcp.1]
      rfl
    · simp [hlen2]
    · intro op hop
      rcases List.mem_cons.mp hop with h | h
      · subst h
        exact ⟨p.1.toNat, _, _, hF⟩
      · exact hfr2 op h

/-- Successful dispatch on the block-capable (MiniMaestro) variant: the
emitted frames cover exactly the sorted channel list, and all transport
activity is writes. -/
lemma miniSetTargets_ok (s : MState) (m : List (ℤ × ℚ)) (hwf : WfLimits s)
    (hnd : (m.map Prod.fst).Nodup) (hne : m ≠ [])
    (hv : ∀ p ∈ m, ChannelOk s p.1 ∧ TargetOk p.2) :
    ∃ s' ops, miniSetTargets s m = .ok (s', ops) ∧ SameShape s s' ∧
      traceChannels ops = sortedKeys m ∧
      (∀ op ∈ ops, ∃ bl, op = .write bl) := by
  obtain ⟨blocks, hbb, hcov, hok, _⟩ := buildBlocks_spec m hnd hne
  have hbcond : ∀ b ∈ blocks, b.2 ≠ [] ∧ ChannelOk s b.1 ∧ ∀ t ∈ b.2, TargetOk t := by
    intro b hbmem
    obtain ⟨hbne, hidx⟩ := hok b hbmem
    have hkey : ∀ i : ℕ, i < b.2.length → (b.1 + (i : ℤ)) ∈ m.map Prod.fst := by
      intro i hi
      have hmem : (b.1 + (i : ℤ)) ∈ blockChannels b.1 b.2.length := by
        unfold blockChannels
        simp only [List.mem_map, List.mem_range]
        exact ⟨i, hi, rfl⟩
      have hmem2 := blocksChannels_mem blocks b hbmem _ hmem
      rw [hcov] at hmem2
      exact (sortedKeys_perm m).mem_iff.mp hmem2
    have hlen0 : 0 < b.2.length := List.length_pos.mpr hbne
    refine ⟨hbne, ?_, ?_⟩
    · have h0 := hkey 0 hlen0
      rw [show b.1 + ((0 : ℕ) : ℤ) = b.1 by push_cast; ring] at h0
      exact (key_valid s m hv b.1 h0).1
    · intro t htm
      obtain ⟨i, hieq⟩ := List.mem_iff_getElem?.mp htm
      have hilt : i < b.2.length := by
        by_contra hcon
        rw [List.getElem?_eq_none (by omega)] at hieq
        exact Option.noConfusion hieq
      have hlk := hidx i hilt
      rw [hieq] at hlk
      have heqt : t = lookupTarget m (b.1 + (i : ℤ)) := Option.some.inj hlk
      rw [heqt]
      exact (key_valid s m hv _ (hkey i hilt)).2
  obtain ⟨s', ops, hemit, hsh, htr, hwr⟩ := emitBlocks_ok s blocks hwf hbcond
  refine ⟨s', ops, ?_, hsh, ?_, hwr⟩
  · unfold miniSetTargets
    rw [hbb]
    exact hemit
  · rw [htr, hcov]

/-! ### Validation and recording in set_targets -/

lemma validateEntries_ok (s : MState) (m : List (ℤ × ℚ))
    (hv : ∀ p ∈ m, ChannelOk s p.1 ∧ TargetOk p.2) :
    validateEntries s m = .ok () := by
  induction m with
  | nil => rfl
  | cons p rest ih =>
    rcases p with ⟨c, t⟩
    obtain ⟨h1, h2⟩ := hv (c, t) (by simp)
    unfold validateEntries
    rw [if_neg (not_not_intro h1), if_neg (not_not_intro h2)]
    exact ih (fun p hp => hv p (List.mem_cons_of_mem _ hp))

lemma validateEntries_err (s : MState) (m : List (ℤ × ℚ))
    (hv : ¬ ∀ p ∈ m, ChannelOk s p.1 ∧ TargetOk p.2) :
    ∃ e, validateEntries s m = .error e := by
  induction m with
  | nil => exact absurd (by simp) hv
  | cons p rest ih =>
    rcases p with ⟨c, t⟩
    unfold validateEntries
    by_cases h1 : ChannelOk s c
    · rw [if_neg (not_not_intro h1)]
      by_cases h2 : TargetOk t
      · rw [if_neg (not_not_intro h2)]
        apply ih
        intro hall
        apply hv
        intro p hp
        rcases List.mem_cons.mp hp with h | h
        · subst h
          exact ⟨h1, h2⟩
        · exact hall p h
      · rw [if_pos h2]
        exact ⟨_, rfl⟩
    · rw [if_pos h1]
      exact ⟨_, rfl⟩

lemma recordAll_length (targets : List (Option ℚ)) (m : List (ℤ × ℚ)) :
    (recordAll targets m).length = targets.length := by
  induction m generalizing targets with
  | nil => rfl
  | cons p rest ih =>
    rcases p with ⟨c, t⟩
    unfold recordAll
    rw [ih]
    simp

lemma recordAll_other (targets : List (Option ℚ)) (m : List (ℤ × ℚ)) (n : ℕ)
    (h : ∀ p ∈ m, p.1.toNat ≠ n) :
    (recordAll targets m)[n]? = targets[n]? := by
  induction m generalizing targets with
  | nil => rfl
  | cons p rest ih =>
    rcases p with ⟨c, t⟩
    unfold recordAll
    rw [ih _ (fun p hp => h p (List.mem_cons_of_mem _ hp))]
    exact List.getElem?_set_ne (h (c, t) (by simp))

/-- The recording loop stores each entry's raw value, keyed by channel. -/
lemma recordAll_get (targets : List (Option ℚ)) (m : List (ℤ × ℚ))
    (hnd : (m.map Prod.fst).Nodup) (hpos : ∀ p ∈ m, 0 ≤ p.1)
    (c : ℤ) (t : ℚ) (hm : (c, t) ∈ m) (hlt : c.toNat < targets.length) :
    (recordAll targets m)[c.toNat]? = some (some t) := by
  induction m generalizing targets with
  | nil => simp at hm
  | cons p rest ih =>
    rcases p with ⟨c', t'⟩
    simp only [List.map_cons, List.nodup_cons] at hnd
    rcases List.mem_cons.mp hm with h | h
    · have hc : c = c' := congrArg Prod.fst h
      have ht : t = t' := congrArg Prod.snd h
      subst hc
      subst ht
      unfold recordAll
      rw [recordAll_other]
      · rw [List.getElem?_set_self', List.getElem?_eq_getElem hlt]
        rfl
      · intro p hp hcon
        have hp0 : 0 ≤ p.1 := hpos p (List.mem_cons_of_mem _ hp)
        have hc0 : 0 ≤ c := hpos (c, t) (by simp)
        have : p.1 = c := by omega
        exact hnd.1 (this ▸ List.mem_map_of_mem Prod.fst hp)
    · unfold recordAll
      exact ih (targets.set c'.toNat (some t')) hnd.2
        (fun p hp => hpos p (List.mem_cons_of_mem _ hp)) h (by simpa using hlt)

/-- Successful `set_targets` on a mapping: all entries validate, the variant
strategy dispatches frames covering exactly the input channels, and every
entry's raw value is recorded afterwards. -/
lemma setTargetsMap_ok (s : MState) (m : List (ℤ × ℚ)) (hwf : WfLimits s)
    (hlen : s.targets.length = s.channels)
    (hnd : (m.map Prod.fst).Nodup)
    (hv : ∀ p ∈ m, ChannelOk s p.1 ∧ TargetOk p.2)
    (hne : s.isMini = true → m ≠ []) :
    ∃ s' ops, setTargetsMap s m = .ok (s', ops) ∧ SameShape s s' ∧
      (traceChannels ops).Perm (m.map Prod.fst) ∧
      (∀ op ∈ ops, ∃ bl, op = .write bl) ∧
      (∀ p ∈ m, s'.targets[p.1.toNat]? = some (some p.2)) := by
  have hval := validateEntries_ok s m hv
  have hrec : ∀ s1 : MState, SameShape s s1 →
      (∀ p ∈ m, ({ s1 with targets := recordAll s1.targets m } : MState).targets[p.1.toNat]?
        = some (some p.2)) := by
    intro s1 hsh p hp
    show (recordAll s1.targets m)[p.1.toNat]? = some (some p.2)
    have hplt : p.1.toNat < s1.targets.length := by
      have hc := (hv p hp).1
      obtain ⟨hc0, hc1⟩ := hc
      have := hsh.2.2.2.2.1
      omega
    have hm : (p.1, p.2) ∈ m := by simpa using hp
    exact recordAll_get s1.targets m hnd (fun p' hp' => (hv p' hp').1.1) p.1 p.2 hm hplt
  have hshape : ∀ s1 : MState, SameShape s s1 →
      SameShape s ({ s1 with targets := recordAll s1.targets m } : MState) := by
    intro s1 hsh
    obtain ⟨x1, x2, x3, x4, x5, x6, x7⟩ := hsh
    exact ⟨x1, x2, x3, x4, by rw [show ({ s1 with targets := recordAll s1.targets m }
      : MState).targets = recordAll s1.targets m from rfl, recordAll_length]; exact x5,
      x6, x7⟩
  by_cases hmini : s.isMini = true
  · obtain ⟨s1, ops, hdis, hsh, htr, hwr⟩ := miniSetTargets_ok s m hwf hnd (hne hmini) hv
    refine ⟨{ s1 with targets := recordAll s1.targets m }, ops, ?_,
      hshape s1 hsh, ?_, hwr, hrec s1 hsh⟩
    · unfold setTargetsMap
      rw [hval]
      unfold dispatchTargets
      rw [hmini]
      show bindRes (miniSetTargets s m) _ = _
      rw [hdis]
      simp only [bindRes]
      rw [List.append_nil]
    · rw [htr]
      exact sortedKeys_perm m
  · have hmicro : s.isMini = false := by
      cases h : s.isMini
      · rfl
      · exact absurd h hmini
    obtain ⟨s1, ops, hdis, hsh, htr, _, hfr⟩ := microSetTargets_ok s m hwf hv
    refine ⟨{ s1 with targets := recordAll s1.targets m }, ops, ?_,
      hshape s1 hsh, ?_, ?_, hrec s1 hsh⟩
    · unfold setTargetsMap
      rw [hval]
      unfold dispatchTargets
      rw [hmicro]
      show bindRes (microSetTargets s m) _ = _
      rw [hdis]
      simp only [bindRes]
      rw [List.append_nil]
    · rw [htr]
    · intro op hop
      obtain ⟨ch, lsb, msb, hsh'⟩ := hfr op hop
      exact ⟨_, hsh'⟩

lemma mem_enumFrom (l : List ℚ) (t : ℚ) :
    ∀ k : ℕ, t ∈ l → ∃ i : ℕ, ((i : ℤ), t) ∈ enumFrom k l := by
  induction l with
  | nil =>
    intro k h
    simp at h
  | cons x rest ih =>
    intro k h
    rcases List.mem_cons.mp h with hx | hx
    · subst hx
      exact ⟨k, by simp [enumFrom]⟩
    · obtain ⟨i, hi⟩ := ih (k + 1) hx
      exact ⟨i, List.mem_cons_of_mem _ hi⟩

lemma wf_initState (b : Bool) (n d : ℕ) (sc : Bool) :
    WfLimits (initState b n d sc) := by
  intro lim hlim
  unfold initState at hlim
  rw [List.eq_of_mem_replicate hlim]
  exact limOk_none

lemma wfMini12 : WfLimits mini12 := wf_initState true 12 12 true

lemma wfMicro6 : WfLimits micro6 := wf_initState false 6 12 true

/-! ### C3: all-or-nothing set_targets -/

/-- C3: for any mapping (or full-length list) with an invalid channel or
target, `set_targets` raises before any transport write and leaves every
recorded target (indeed the whole state) unchanged; when every entry is
valid, the call succeeds and the emitted frames address exactly the input
channels. -/
theorem claim3_set_targets_atomic (s : MState) (m : List (ℤ × ℚ))
    (hwf : WfLimits s) (hlen : s.targets.length = s.channels)
    (hnd : (m.map Prod.fst).Nodup) :
    (¬ (∀ p ∈ m, ChannelOk s p.1 ∧ TargetOk p.2) →
      ∃ e, setTargetsMap s m = .error (s, [], e)) ∧
    ((∀ p ∈ m, ChannelOk s p.1 ∧ TargetOk p.2) → (s.isMini = true → m ≠ []) →
      ∃ s' ops, setTargetsMap s m = .ok (s', ops) ∧
        (traceChannels ops).Perm (m.map Prod.fst)) ∧
    (∀ l : List ℚ, l.length = s.channels → (∃ t ∈ l, ¬ TargetOk t) →
      ∃ e, setTargetsList s l = .error (s, [], e)) := by
  refine ⟨?_, ?_, ?_⟩
  · intro hbad
    obtain ⟨e, he⟩ := validateEntries_err s m hbad
    refine ⟨e, ?_⟩
    unfold setTargetsMap
    rw [he]
  · intro hv hne
    obtain ⟨s', ops, heq, _, hperm, _, _⟩ := setTargetsMap_ok s m hwf hlen hnd hv hne
    exact ⟨s', ops, heq, hperm⟩
  · rintro l hl ⟨t, htl, htbad⟩
    have hbad : ¬ ∀ p ∈ enumFrom 0 l, ChannelOk s p.1 ∧ TargetOk p.2 := by
      obtain ⟨i, hi⟩ := mem_enumFrom l t 0 htl
      intro hall
      exact htbad (hall _ hi).2
    obtain ⟨e, he⟩ := validateEntries_err s _ hbad
    refine ⟨e, ?_⟩
    unfold setTargetsList
    rw [if_neg (by simp [hl])]
    unfold setTargetsMap
    rw [he]

lemma valid_entry_mini12 :
    ∀ p ∈ [((0 : ℤ), (1500 : ℚ))], ChannelOk mini12 p.1 ∧ TargetOk p.2 := by
  intro p hp
  simp only [List.mem_singleton] at hp
  subst hp
  exact ⟨by decide, by norm_num [TargetOk]⟩

lemma not_targetOk_neg : ¬ TargetOk (-1 : ℚ) := by
  norm_num [TargetOk]

lemma claim3_bad_channel :
    ¬ ∀ p ∈ [((0 : ℤ), (1500 : ℚ)), (12, 1500)],
      ChannelOk mini12 p.1 ∧ TargetOk p.2 :=
  fun hall =>
    (by decide : ¬ ChannelOk mini12 12)
      (hall ((12 : ℤ), (1500 : ℚ)) (by simp)).1

/-- C3 witness: a mapping with channel 12 on a 12-channel device is rejected
with the state untouched and no bytes written; the singleton mapping {0: 1500}
is dispatched; a full-length list containing -1 is rejected. -/
theorem claim3_witness :
    (∃ e, setTargetsMap mini12 [((0 : ℤ), (1500 : ℚ)), (12, 1500)]
        = .error (mini12, [], e)) ∧
    (∃ s' ops, setTargetsMap mini12 [((0 : ℤ), (1500 : ℚ))] = .ok (s', ops) ∧
      (traceChannels ops).Perm ([((0 : ℤ), (1500 : ℚ))].map Prod.fst)) ∧
    (∃ e, setTargetsList micro6 [0, 0, 0, 0, 0, -1] = .error (micro6, [], e)) :=
  ⟨(claim3_set_targets_atomic mini12 [((0 : ℤ), (1500 : ℚ)), (12, 1500)]
      wfMini12 rfl (by decide)).1 claim3_bad_channel,
   (claim3_set_targets_atomic mini12 [((0 : ℤ), (1500 : ℚ))]
      wfMini12 rfl (by decide)).2.1 valid_entry_mini12 (fun _ => by simp),
   (claim3_set_targets_atomic micro6 ([] : List (ℤ × ℚ))
      wfMicro6 rfl (by decide)).2.2 [0, 0, 0, 0, 0, -1] rfl
      ⟨-1, by simp, not_targetOk_neg⟩⟩

/-! ### C4: set_targets records raw, not clamped, values -/

/-- C4 counterexample: with limits (1000, 2000) on channel 0, the batched
`set_targets({0: 500})` sends the clamped frame (4 x 1000 = 4000, bytes
32, 31) but records the raw 500, while the channel's clamped value is 1000
and 500 is not 1000 - so the recorded target is not the clamped value. -/
theorem claim4_counterexample :
    setTargetsMap exLim5 [((0 : ℤ), (500 : ℚ))] =
      .ok ({ exLim5 with targets :=
               [some 500, none, none, none, none, none] },
           [TOp.write [0xAA, 12, 0x04, 0, 32, 31]]) ∧
    clampTarget (getLimits exLim5 0) 500 = 1000 ∧ (500 : ℚ) ≠ 1000 := by
  refine ⟨?_, ?_, by norm_num⟩
  · have hv : ∀ p ∈ [((0 : ℤ), (500 : ℚ))], ChannelOk exLim5 p.1 ∧ TargetOk p.2 := by
      intro p hp
      simp only [List.mem_singleton] at hp
      subst hp
      exact ⟨by decide, by norm_num [TargetOk]⟩
    have hval := validateEntries_ok exLim5 _ hv
    have hst := setTarget_ok exLim5 0 500 (by decide) (by norm_num [TargetOk]) exLim5_wf
    rw [show getLimits exLim5 0 = (some 1000, some 2000) from rfl, clamp_500] at hst
    rw [show (4 : ℚ) * 1000 = ((4000 : ℤ) : ℚ) by norm_num, pyRound_cast] at hst
    unfold setTargetsMap
    rw [hval]
    unfold dispatchTargets
    rw [show exLim5.isMini = false from rfl]
    show bindRes (microSetTargets exLim5 [((0 : ℤ), (500 : ℚ))]) _ = _
    rw [show microSetTargets exLim5 [((0 : ℤ), (500 : ℚ))]
        = bindRes (setTarget exLim5 0 500) (fun s1 => microSetTargets s1 []) from rfl]
    rw [hst]
    simp only [bindRes, microSetTargets]
    rfl
  · rw [show getLimits exLim5 0 = (some 1000, some 2000) from rfl]
    exact clamp_500

/-- C4 (amended): after a successful batched `set_targets`, the recorded
target of every input channel is the raw validated input value - clamping
affects only the wire frames of single-target subpaths, and the final
recording loop overwrites any clamped value with the raw one. -/
theorem claim4_records_raw (s : MState) (m : List (ℤ × ℚ)) (hwf : WfLimits s)
    (hlen : s.targets.length = s.channels)
    (hnd : (m.map Prod.fst).Nodup)
    (hv : ∀ p ∈ m, ChannelOk s p.1 ∧ TargetOk p.2)
    (hne : s.isMini = true → m ≠ []) :
    ∃ s' ops, setTargetsMap s m = .ok (s', ops) ∧
      ∀ p ∈ m, s'.targets.getD p.1.toNat none = some p.2 := by
  obtain ⟨s', ops, heq, _, _, _, hget⟩ := setTargetsMap_ok s m hwf hlen hnd hv hne
  refine ⟨s', ops, heq, ?_⟩
  intro p hp
  rw [List.getD_eq_getElem?_getD, hget p hp]
  rfl

/-- C4 witness: the amended statement at the concrete mapping {0: 1500} on a
fresh 12-channel device. -/
theorem claim4_witness :
    ∃ s' ops, setTargetsMap mini12 [((0 : ℤ), (1500 : ℚ))] = .ok (s', ops) ∧
      ∀ p ∈ [((0 : ℤ), (1500 : ℚ))], s'.targets.getD p.1.toNat none = some p.2 :=
  claim4_records_raw mini12 [((0 : ℤ), (1500 : ℚ))] wfMini12 rfl (by decide)
    valid_entry_mini12 (fun _ => by simp)

/-! ### C6: the reduced variant never batches -/

/-- C6: on the reduced-capability variant, dispatching any valid mapping
emits exactly one SET_TARGET frame per entry, in mapping order (the frames
address exactly the mapping's channels), and never a SET_MULTIPLE_TARGETS
(0x1F) block frame, regardless of channel contiguity. -/
theorem claim6_micro_one_frame_per_channel (s : MState) (m : List (ℤ × ℚ))
    (hmicro : s.isMini = false) (hwf : WfLimits s)
    (hv : ∀ p ∈ m, ChannelOk s p.1 ∧ TargetOk p.2) :
    ∃ s' ops, dispatchTargets s m = .ok (s', ops) ∧
      ops.length = m.length ∧
      (∀ op ∈ ops, ∃ ch lsb msb, op = .write [0xAA, s.device, 0x04, ch, lsb, msb]) ∧
      traceChannels ops = m.map Prod.fst ∧
      (∀ op ∈ ops, ∀ bl, op = .write bl → bl[2]? ≠ some 0x1F) := by
  obtain ⟨s', ops, heq, _, htr, hlen, hfr⟩ := microSetTargets_ok s m hwf hv
  refine ⟨s', ops, ?_, hlen, hfr, htr, ?_⟩
  · unfold dispatchTargets
    rw [hmicro]
    exact heq
  · intro op hop bl hbl
    obtain ⟨ch, lsb, msb, hx⟩ := hfr op hop
    rw [hx] at hbl
    injection hbl with h
    rw [← h]
    simp

/-- The claim's 6-entry mapping, with channels 7 and 8 replaced by the valid
channels 0 and 4 of the 6-channel model. -/
def exMap6 : List (ℤ × ℚ) :=
  [(2, 1000), (1, 0), (3, 1500), (5, 4095.75), (0, 1), (4, 2)]

lemma valid_exMap6 : ∀ p ∈ exMap6, ChannelOk micro6 p.1 ∧ TargetOk p.2 := by
  intro p hp
  simp only [exMap6, List.mem_cons, List.not_mem_nil, or_false] at hp
  rcases hp with h | h | h | h | h | h <;> subst h <;>
    exact ⟨by decide, by norm_num [TargetOk]⟩

/-- C6 witness: the 6-entry mapping yields 6 single-target frames and no
block frame on the 6-channel device. -/
theorem claim6_witness :
    ∃ s' ops, dispatchTargets micro6 exMap6 = .ok (s', ops) ∧
      ops.length = 6 ∧
      (∀ op ∈ ops, ∃ ch lsb msb, op = .write [0xAA, 12, 0x04, ch, lsb, msb]) := by
  obtain ⟨s', ops, h1, h2, h3, _, _⟩ :=
    claim6_micro_one_frame_per_channel micro6 exMap6 rfl wfMicro6 valid_exMap6
  exact ⟨s', ops, h1, h2, h3⟩

/-! ### C1: the block-capable batching algorithm -/

/-- The claim's example mapping {2:1000, 1:0, 3:1500, 5:4095.75, 7:1, 8:2}. -/
def exMap1 : List (ℤ × ℚ) :=
  [(2, 1000), (1, 0), (3, 1500), (5, 4095.75), (7, 1), (8, 2)]

lemma valid_exMap1 : ∀ p ∈ exMap1, ChannelOk mini12 p.1 ∧ TargetOk p.2 := by
  intro p hp
  simp only [exMap1, List.mem_cons, List.not_mem_nil, or_false] at hp
  rcases hp with h | h | h | h | h | h <;> subst h <;>
    exact ⟨by decide, by norm_num [TargetOk]⟩

lemma exMap1_blocks :
    buildBlocks exMap1 = some [(1, [0, 1000, 1500]), (5, [4095.75]), (7, [1, 2])] :=
  rfl

lemma enc_block1 : encodePairs [0, 1000, 1500] = .ok [0, 0, 32, 31, 112, 46] := by
  simp only [encodePairs]
  rw [show (4 : ℚ) * 0 = ((0 : ℤ) : ℚ) by norm_num, pyTrunc_cast]
  rw [show (4 : ℚ) * 1000 = ((4000 : ℤ) : ℚ) by norm_num, pyTrunc_cast]
  rw [show (4 : ℚ) * 1500 = ((6000 : ℤ) : ℚ) by norm_num, pyTrunc_cast]
  rfl

lemma enc_block3 : encodePairs [1, 2] = .ok [4, 0, 8, 0] := by
  simp only [encodePairs]
  rw [show (4 : ℚ) * 1 = ((4 : ℤ) : ℚ) by norm_num, pyTrunc_cast]
  rw [show (4 : ℚ) * 2 = ((8 : ℤ) : ℚ) by norm_num, pyTrunc_cast]
  rfl

lemma emit_exMap1 :
    emitBlocks mini12 [(1, [0, 1000, 1500]), (5, [4095.75]), (7, [1, 2])] =
      .ok ({ mini12 with targets := mini12.targets.set 5 (some 4095.75) },
        [TOp.write [0xAA, 12, 0x1F, 3, 1, 0, 0, 32, 31, 112, 46],
         TOp.write [0xAA, 12, 0x04, 5, 127, 127],
         TOp.write [0xAA, 12, 0x1F, 2, 7, 4, 0, 8, 0]]) := by
  have hst := setTarget_ok mini12 5 4095.75 (by decide) (by norm_num [TargetOk]) wfMini12
  rw [show clampTarget (getLimits mini12 5) (4095.75 : ℚ) = 4095.75 from rfl] at hst
  rw [show (4 : ℚ) * 4095.75 = ((16383 : ℤ) : ℚ) by norm_num, pyRound_cast] at hst
  have he1 : emitBlock mini12 1 [0, 1000, 1500] =
      .ok (mini12, [TOp.write [0xAA, 12, 0x1F, 3, 1, 0, 0, 32, 31, 112, 46]]) := by
    unfold emitBlock
    rw [if_neg (by decide), enc_block1]
    rfl
  have he2 : emitBlock mini12 5 [4095.75] = setTarget mini12 5 4095.75 := by
    unfold emitBlock
    rw [if_pos (by decide)]
    rfl
  have he3 : ∀ sx : MState, sx.device = 12 → emitBlock sx 7 [1, 2] =
      .ok (sx, [TOp.write [0xAA, 12, 0x1F, 2, 7, 4, 0, 8, 0]]) := by
    intro sx hdev
    unfold emitBlock
    rw [if_neg (by decide), enc_block3, hdev]
    rfl
  simp only [emitBlocks]
  rw [he1]
  simp only [bindRes]
  rw [he2, hst]
  dsimp only
  rw [he3 _ rfl]
  rfl

/-- The state after the C1 example call: dispatch recorded the clamped 4095.75
on channel 5, then the recording loop stored every raw entry. -/
def exMap1Result : MState :=
  { mini12 with targets := recordAll (mini12.targets.set 5 (some 4095.75)) exMap1 }

/-- C1: the block-capable variant batches {2:1000, 1:0, 3:1500, 5:4095.75,
7:1, 8:2} into exactly 3 frames: SET_MULTIPLE_TARGETS for the run [1,2,3]
(count 3, first channel 1, encode14 pairs of 0, 4000, 6000 in ascending
channel order), a single SET_TARGET for channel 5, and SET_MULTIPLE_TARGETS
for the run [7,8]; and in general the algorithm partitions the sorted
channels into maximal runs of consecutive channels, each block listing the
mapped targets in ascending channel order. -/
theorem claim1_mini_batching :
    (∃ s', setTargetsMap mini12 exMap1 = .ok (s',
        [TOp.write [0xAA, 12, 0x1F, 3, 1, 0, 0, 32, 31, 112, 46],
         TOp.write [0xAA, 12, 0x04, 5, 127, 127],
         TOp.write [0xAA, 12, 0x1F, 2, 7, 4, 0, 8, 0]])) ∧
    (∀ m : List (ℤ × ℚ), (m.map Prod.fst).Nodup → m ≠ [] →
      ∃ blocks, buildBlocks m = some blocks ∧
        blocksChannels blocks = sortedKeys m ∧
        (∀ b ∈ blocks, BlockOk m b) ∧
        List.Chain' Gap blocks) := by
  constructor
  · refine ⟨exMap1Result, ?_⟩
    unfold setTargetsMap
    rw [validateEntries_ok mini12 exMap1 valid_exMap1]
    unfold dispatchTargets
    rw [show mini12.isMini = true from rfl]
    rw [show miniSetTargets mini12 exMap1 =
      emitBlocks mini12 [(1, [0, 1000, 1500]), (5, [4095.75]), (7, [1, 2])] by
        unfold miniSetTargets
        rw [exMap1_blocks]]
    dsimp only
    rw [emit_exMap1]
    simp only [bindRes]
    rfl
  · exact fun m hnd hne => buildBlocks_spec m hnd hne

/-- C1 witness: the general partition statement instantiated at the claim's
concrete mapping. -/
theorem claim1_witness :
    ∃ blocks, buildBlocks exMap1 = some blocks ∧
      blocksChannels blocks = sortedKeys exMap1 ∧
      (∀ b ∈ blocks, BlockOk exMap1 b) ∧
      List.Chain' Gap blocks :=
  claim1_mini_batching.2 exMap1 (by decide) (by decide)

/-! ### C7: close -/

lemma enumFrom_replicate_mem (n : ℕ) :
    ∀ (k : ℕ) (p : ℤ × ℚ), p ∈ enumFrom k (List.replicate n 0) →
      ∃ i : ℕ, i < n ∧ p = (((k + i : ℕ) : ℤ), 0) := by
  induction n with
  | zero =>
    intro k p hp
    simp [enumFrom] at hp
  | succ n ih =>
    intro k p hp
    rw [List.replicate_succ] at hp
    rcases List.mem_cons.mp hp with h | h
    · exact ⟨0, by omega, by simpa using h⟩
    · obtain ⟨i, hi, hpe⟩ := ih (k + 1) p h
      exact ⟨i + 1, by omega,
        by rw [hpe, show k + 1 + i = k + (i + 1) from by omega]⟩

lemma enumFrom_replicate_mem' (n : ℕ) :
    ∀ (k i : ℕ), i < n →
      (((k + i : ℕ) : ℤ), (0 : ℚ)) ∈ enumFrom k (List.replicate n 0) := by
  induction n with
  | zero =>
    intro k i hi
    omega
  | succ n ih =>
    intro k i hi
    rw [List.replicate_succ]
    cases i with
    | zero => simp [enumFrom]
    | succ i' =>
      have hmem := ih (k + 1) i' (by omega)
      rw [show k + (i' + 1) = k + 1 + i' from by omega]
      exact List.mem_cons_of_mem _ hmem

lemma enumFrom_keys (l : List ℚ) : ∀ k : ℕ, ∀ p ∈ enumFrom k l, (k : ℤ) ≤ p.1 := by
  induction l with
  | nil =>
    intro k p hp
    simp [enumFrom] at hp
  | cons x rest ih =>
    intro k p hp
    rcases List.mem_cons.mp hp with h | h
    · subst h
      simp
    · have := ih (k + 1) p h
      push_cast at this ⊢
      omega

lemma enumFrom_nodup (l : List ℚ) : ∀ k : ℕ, ((enumFrom k l).map Prod.fst).Nodup := by
  induction l with
  | nil =>
    intro k
    simp [enumFrom]
  | cons x rest ih =>
    intro k
    simp only [enumFrom, List.map_cons, List.nodup_cons]
    refine ⟨?_, ih (k + 1)⟩
    intro hmem
    obtain ⟨p, hp, hpe⟩ := List.mem_map.mp hmem
    have := enumFrom_keys rest (k + 1) p hp
    rw [hpe] at this
    push_cast at this
    omega

lemma enumFrom_ne_nil (n : ℕ) (hn : 0 < n) (k : ℕ) :
    enumFrom k (List.replicate n (0 : ℚ)) ≠ [] := by
  cases n with
  | zero => omega
  | succ n' =>
    rw [List.replicate_succ]
    simp [enumFrom]

/-- Successful `stop`: every channel's recorded target becomes 0 and the
transport sees only writes. -/
lemma stop_ok (s : MState) (hwf : WfLimits s) (hlen : s.targets.length = s.channels)
    (hch : 0 < s.channels) :
    ∃ s' ops, stop s = .ok (s', ops) ∧ SameShape s s' ∧
      (∀ i : ℕ, i < s.channels → s'.targets.getD i none = some 0) ∧
      (∀ op ∈ ops, ∃ bl, op = .write bl) := by
  have hv : ∀ p ∈ enumFrom 0 (List.replicate s.channels 0),
      ChannelOk s p.1 ∧ TargetOk p.2 := by
    intro p hp
    obtain ⟨i, hi, hpe⟩ := enumFrom_replicate_mem s.channels 0 p hp
    subst hpe
    refine ⟨⟨by positivity, ?_⟩, by norm_num [TargetOk]⟩
    show ((0 + i : ℕ) : ℤ) < s.channels
    push_cast
    omega
  obtain ⟨s', ops, heq, hsh, _, hwr, hget⟩ := setTargetsMap_ok s _ hwf hlen
    (enumFrom_nodup _ 0) hv (fun _ => enumFrom_ne_nil s.channels hch 0)
  refine ⟨s', ops, ?_, hsh, ?_, hwr⟩
  · unfold stop setTargetsList
    rw [if_neg (by simp)]
    exact heq
  · intro i hi
    have hp := enumFrom_replicate_mem' s.channels 0 i hi
    have := hget _ hp
    rw [List.getD_eq_getElem?_getD]
    have htn : (((0 + i : ℕ) : ℤ)).toNat = i := by
      push_cast
      omega
    rw [htn] at this
    rw [this]
    rfl

lemma count_close_writes (ops : List TOp) (h : ∀ op ∈ ops, ∃ bl, op = .write bl) :
    ops.count TOp.closeConn = 0 := by
  induction ops with
  | nil => rfl
  | cons op rest ih =>
    obtain ⟨bl, hbl⟩ := h op (by simp)
    subst hbl
    rw [List.count_cons]
    rw [ih (fun op hop => h op (List.mem_cons_of_mem _ hop))]
    simp

/-- C7: `close` on an already-closed device performs no transport operation;
with the safe-close flag set, an open device first gets every channel's
recorded target zeroed (the stop path), then the port is closed exactly once,
as the final transport operation, and a second `close` does nothing. -/
theorem claim7_close (s : MState) (hwf : WfLimits s)
    (hlen : s.targets.length = s.channels) (hch : 0 < s.channels) :
    (s.closed = true → closeDev s = .ok (s, [])) ∧
    (s.closed = false → s.safeClose = true →
      ∃ s' ops, closeDev s = .ok (s', ops) ∧ s'.closed = true ∧
        (∀ i : ℕ, i < s.channels → s'.targets.getD i none = some 0) ∧
        ops.count TOp.closeConn = 1 ∧ ops.getLast? = some TOp.closeConn ∧
        closeDev s' = .ok (s', [])) := by
  constructor
  · intro hc
    unfold closeDev
    rw [if_pos hc]
  · intro hc hsafe
    obtain ⟨s1, ops1, hstop, hsh, hzero, hwr⟩ := stop_ok s hwf hlen hch
    refine ⟨{ s1 with closed := true }, ops1 ++ [TOp.closeConn], ?_, rfl,
      ?_, ?_, List.getLast?_concat _, ?_⟩
    · unfold closeDev
      rw [if_neg (by simp [hc]), hsafe]
      show bindRes (stop s) _ = _
      rw [hstop]
      simp only [bindRes]
    · intro i hi
      exact hzero i hi
    · rw [List.count_append, count_close_writes ops1 hwr]
      rfl
    · unfold closeDev
      rw [if_pos rfl]

/-- C7 witness: on a fresh 12-channel device (safe-close on), close zeroes
all recorded targets and closes the port once, and a repeated close - like a
close on an already-closed device - does nothing. -/
theorem claim7_witness :
    closeDev { mini12 with closed := true } =
        .ok ({ mini12 with closed := true }, []) ∧
    (∃ s' ops, closeDev mini12 = .ok (s', ops) ∧ s'.closed = true ∧
      (∀ i : ℕ, i < mini12.channels → s'.targets.getD i none = some 0) ∧
      ops.count TOp.closeConn = 1 ∧ ops.getLast? = some TOp.closeConn ∧
      closeDev s' = .ok (s', [])) :=
  ⟨(claim7_close { mini12 with closed := true } wfMini12 rfl (by decide)).1 rfl,
   (claim7_close mini12 wfMini12 rfl (by decide)).2 rfl rfl⟩

end PololuMaestro
